import Mathlib

/-!
Shallow embedding of `port_scanner.py`, a concurrent TCP port scanner.
The source has four parts: a connect probe (`PortScanner.scan_port`), a
threaded batch scanner (`PortScanner.scan_ports`), a process-pooled
network scanner (`NetworkScanner.scan_network`) and a port-list
partitioner (`divide_ports`).  Socket behaviour and worker faults are
modelled by explicit oracles; a Python exception escaping a function
becomes an `Option.none` result.
-/

/-- Outcome of one TCP connect attempt as the `socket` library reports it
to `scan_port`: success, expiry of the socket timeout (`socket.timeout`),
active refusal (`ConnectionRefusedError`), or any other exception carrying
its `str(e)` message. -/
inductive ConnectOutcome where
  | success : ConnectOutcome
  | timedOut : ConnectOutcome
  | refused : ConnectOutcome
  | fault : String → ConnectOutcome
  deriving DecidableEq

/-- Network oracle: what `socket.connect((ip, port))` does for a given ip,
port and configured timeout. -/
abbrev NetEnv := String → Nat → Nat → ConnectOutcome

/-- Fault oracle for a pool of futures: `f i = some msg` means retrieving
the result of the i-th submitted future raises an exception with message
`msg`; `f i = none` means `future.result()` returns normally. -/
abbrev FaultOracle := Nat → Option String

/-- Embeds class `PortScanner`: holds the socket timeout (default 1 s). -/
structure PortScanner where
  timeout : Nat := 1
  deriving DecidableEq

/-- Embeds `PortScanner.scan_port` (src/port_scanner.py lines 32-56):
`connect` success returns `(True, None)`; `socket.timeout` and
`ConnectionRefusedError` both return `(False, None)`; any other exception
`e` returns `(False, str(e))`.  Every branch returns; nothing escapes. -/
def scan_port (s : PortScanner) (env : NetEnv) (ip : String) (port : Nat) :
    Bool × Option String :=
  match env ip port s.timeout with
  | ConnectOutcome.success => (true, none)
  | ConnectOutcome.timedOut => (false, none)
  | ConnectOutcome.refused => (false, none)
  | ConnectOutcome.fault msg => (false, some msg)

/-- Embeds `divide_ports` (src/port_scanner.py lines 166-180).  Python
raises `ZeroDivisionError` when the clamped chunk count is zero (empty
`ports`), modelled as `none`.  Otherwise the result is the list
comprehension of `num_chunks` slices of `chunk_size` ports plus the
trailing slice `ports[num_chunks * chunk_size:]`. -/
def divide_ports (ports : List Nat) (num_chunks : Nat) : Option (List (List Nat)) :=
  let nc := if num_chunks > ports.length then ports.length else num_chunks
  if nc = 0 then none
  else
    let chunk_size := ports.length / nc
    some (((List.range nc).map fun i => (ports.drop (i * chunk_size)).take chunk_size)
      ++ [ports.drop (nc * chunk_size)])

/-- Concatenating the `k` slices `ports[i*cs:(i+1)*cs]` for `i < k`
yields the prefix `ports[:k*cs]`. -/
theorem slices_flatten (P : List Nat) (cs : Nat) :
    ∀ k : Nat,
      (((List.range k).map fun i => (P.drop (i * cs)).take cs)).flatten
        = P.take (k * cs) := by
  intro k
  induction k with
  | zero => simp
  | succ k ih =>
      rw [List.range_succ, List.map_append, List.flatten_append, ih]
      simp only [List.map_cons, List.map_nil, List.flatten_cons, List.flatten_nil,
        List.append_nil]
      rw [Nat.succ_mul, List.take_add]

/-- Clamping in `divide_ports` (`if num_chunks > len(ports): num_chunks = len(ports)`)
computes the minimum of the requested count and the list length. -/
theorem clamp_eq_min (n m : Nat) : (if n > m then m else n) = min n m := by
  split <;> omega

/-- Unfolding of `divide_ports` in the non-raising case. -/
theorem divide_ports_eq (P : List Nat) (n : Nat)
    (h0 : (if n > P.length then P.length else n) ≠ 0) :
    divide_ports P n =
      some (((List.range (if n > P.length then P.length else n)).map
            fun i => (P.drop (i * (P.length / (if n > P.length then P.length else n)))).take
              (P.length / (if n > P.length then P.length else n)))
        ++ [P.drop ((if n > P.length then P.length else n) *
              (P.length / (if n > P.length then P.length else n)))]) := by
  rw [divide_ports]
  simp [h0]

/-- C1: for every port list `P` and chunk count `n ≥ 1`, the chunks that
`divide_ports P n` returns concatenate back to `P` itself, in order; hence
their multiset union is exactly the multiset of `P` — no port duplicated,
no port lost. -/
theorem divide_ports_preserves_ports (P : List Nat) (n : Nat)
    (chunks : List (List Nat)) (hn : 1 ≤ n)
    (h : divide_ports P n = some chunks) : chunks.flatten = P := by
  by_cases h0 : (if n > P.length then P.length else n) = 0
  · rw [divide_ports] at h
    simp [h0] at h
  · rw [divide_ports_eq P n h0] at h
    injection h with h
    subst h
    rw [List.flatten_append, slices_flatten]
    simp [List.take_append_drop]

/-- Witness for C1 at `P = [1, 2, 3]`, `n = 2`. -/
theorem divide_ports_preserves_ports_witness :
    1 ≤ 2 ∧ divide_ports [1, 2, 3] 2 = some [[1], [2], [3]] ∧
      ([[1], [2], [3]] : List (List Nat)).flatten = [1, 2, 3] :=
  ⟨by decide, by rfl, divide_ports_preserves_ports [1, 2, 3] 2 [[1], [2], [3]]
    (by decide) (by rfl)⟩

/-- C10: `divide_ports` on the empty port list raises for every requested
chunk count `n ≥ 1`: the clamp sets the chunk count to `0` and
`len(ports) // num_chunks` divides by zero (`ZeroDivisionError`, modelled
as `none`), so no chunk sequence is returned. -/
theorem divide_ports_empty_raises (n : Nat) (hn : 1 ≤ n) :
    divide_ports [] n = none := by
  rw [divide_ports]
  simp

/-- Witness for C10 at `n = 1`. -/
theorem divide_ports_empty_raises_witness :
    1 ≤ 1 ∧ divide_ports [] 1 = none :=
  ⟨by decide, divide_ports_empty_raises 1 (by decide)⟩

/-- Unfolding of `divide_ports` with the clamp written as a minimum. -/
theorem divide_ports_eq_min (P : List Nat) (n : Nat) (h0 : min n P.length ≠ 0) :
    divide_ports P n =
      some (((List.range (min n P.length)).map
            fun i => (P.drop (i * (P.length / min n P.length))).take
              (P.length / min n P.length))
        ++ [P.drop (min n P.length * (P.length / min n P.length))]) := by
  have h := divide_ports_eq P n (by rw [clamp_eq_min]; exact h0)
  rwa [clamp_eq_min] at h

/-- C2: on a non-empty port list, with `nc = min n (len P)` the clamped
chunk count and `cs = len P / nc`, `divide_ports` returns `nc + 1` chunks:
the first `nc` each hold exactly `cs` contiguous ports in input order
(their concatenation is the prefix of length `nc * cs`), and the final
trailing chunk is the remaining `len P mod nc` ports (possibly none); in
particular `[1,2,3,4,5]` with `n = 5` gives five singletons plus one empty
trailing chunk, six chunks in total. -/
theorem divide_ports_shape (P : List Nat) (n : Nat) (hP : P ≠ []) (hn : 1 ≤ n) :
    (∃ chunks : List (List Nat),
      divide_ports P n = some chunks ∧
      chunks.length = min n P.length + 1 ∧
      (∀ c ∈ chunks.take (min n P.length), c.length = P.length / min n P.length) ∧
      (chunks.take (min n P.length)).flatten
        = P.take (min n P.length * (P.length / min n P.length)) ∧
      chunks.drop (min n P.length)
        = [P.drop (min n P.length * (P.length / min n P.length))] ∧
      (P.drop (min n P.length * (P.length / min n P.length))).length
        = P.length % min n P.length) ∧
    divide_ports [1, 2, 3, 4, 5] 5 = some [[1], [2], [3], [4], [5], []] := by
  constructor
  · have hlen : 1 ≤ P.length := by
      cases P with
      | nil => exact absurd rfl hP
      | cons a t => simp
    have hnc : 1 ≤ min n P.length := le_min hn hlen
    have hfrontlen :
        ((List.range (min n P.length)).map
          fun i => (P.drop (i * (P.length / min n P.length))).take
            (P.length / min n P.length)).length = min n P.length := by
      simp
    refine ⟨_, divide_ports_eq_min P n (by omega), ?_, ?_, ?_, ?_, ?_⟩
    · simp
    · intro c hc
      rw [List.take_left' hfrontlen] at hc
      obtain ⟨i, hi, rfl⟩ := List.mem_map.1 hc
      have hi' : i < min n P.length := List.mem_range.1 hi
      have h1 : min n P.length * (P.length / min n P.length) ≤ P.length := by
        rw [Nat.mul_comm]; exact Nat.div_mul_le_self _ _
      have h2 : (i + 1) * (P.length / min n P.length)
          ≤ min n P.length * (P.length / min n P.length) :=
        Nat.mul_le_mul_right _ (by omega)
      rw [Nat.succ_mul] at h2
      rw [List.length_take, List.length_drop]
      omega
    · rw [List.take_left' hfrontlen, slices_flatten]
    · rw [List.drop_left' hfrontlen]
    · have h1 := Nat.div_add_mod P.length (min n P.length)
      rw [List.length_drop]
      omega
  · rfl

/-- Witness for C2 at `P = [1, 2, 3, 4, 5]`, `n = 5`. -/
theorem divide_ports_shape_witness :
    ([1, 2, 3, 4, 5] : List Nat) ≠ [] ∧ 1 ≤ 5 ∧
    ((∃ chunks : List (List Nat),
      divide_ports [1, 2, 3, 4, 5] 5 = some chunks ∧
      chunks.length = 6 ∧
      (∀ c ∈ chunks.take 5, c.length = 1) ∧
      (chunks.take 5).flatten = ([1, 2, 3, 4, 5] : List Nat).take 5 ∧
      chunks.drop 5 = [([1, 2, 3, 4, 5] : List Nat).drop 5] ∧
      (([1, 2, 3, 4, 5] : List Nat).drop 5).length = 0) ∧
     divide_ports [1, 2, 3, 4, 5] 5 = some [[1], [2], [3], [4], [5], []]) :=
  ⟨by decide, by decide, divide_ports_shape [1, 2, 3, 4, 5] 5 (by decide) (by decide)⟩

/-- C3: `scan_port` yields exactly one of three tagged outcomes and never
propagates an exception: Open `(true, none)` when the connect succeeds,
Closed `(false, none)` when the connection is refused or the timeout
expires (both classified identically), and Errored `(false, some msg)` on
any other fault. -/
theorem scan_port_classification (s : PortScanner) (env : NetEnv) (ip : String)
    (port : Nat) :
    (scan_port s env ip port = (true, none) ∨ scan_port s env ip port = (false, none) ∨
      ∃ msg, scan_port s env ip port = (false, some msg)) ∧
    (env ip port s.timeout = ConnectOutcome.success →
      scan_port s env ip port = (true, none)) ∧
    (env ip port s.timeout = ConnectOutcome.refused →
      scan_port s env ip port = (false, none)) ∧
    (env ip port s.timeout = ConnectOutcome.timedOut →
      scan_port s env ip port = (false, none)) ∧
    (∀ msg, env ip port s.timeout = ConnectOutcome.fault msg →
      scan_port s env ip port = (false, some msg)) := by
  cases h : env ip port s.timeout <;> simp [scan_port, h]

/-- Witness for C3: a successful connect is classified Open. -/
theorem scan_port_classification_witness :
    (fun _ _ _ => ConnectOutcome.success : NetEnv) "10.0.0.1" 80 1
        = ConnectOutcome.success ∧
      scan_port ⟨1⟩ (fun _ _ _ => ConnectOutcome.success) "10.0.0.1" 80 = (true, none) :=
  ⟨rfl, (scan_port_classification ⟨1⟩ (fun _ _ _ => ConnectOutcome.success)
    "10.0.0.1" 80).2.1 rfl⟩

/-- Embeds one iteration of the result loop in `PortScanner.scan_ports`
(src/port_scanner.py lines 74-84): a retrieval fault appends `(port,
str(e))` to the errors; otherwise `if is_open` appends the port to the
open list and `if error` (Python truthiness: `None` and `""` are falsy)
appends `(port, error)` to the errors. -/
def probeStep (s : PortScanner) (env : NetEnv) (f : FaultOracle) (ip : String)
    (acc : List Nat × List (Nat × String)) (i : Nat) (port : Nat) :
    List Nat × List (Nat × String) :=
  match f i with
  | some msg => (acc.1, acc.2 ++ [(port, msg)])
  | none =>
      let r := scan_port s env ip port
      (if r.1 then acc.1 ++ [port] else acc.1,
       match r.2 with
       | none => acc.2
       | some m => if m = "" then acc.2 else acc.2 ++ [(port, m)])

/-- Result loop of `scan_ports`: the futures dict is iterated in
submission order, i.e. over `ports` in input order, carrying the position
of the next future. -/
def scanLoop (s : PortScanner) (env : NetEnv) (f : FaultOracle) (ip : String) :
    Nat → List Nat → List Nat × List (Nat × String) → List Nat × List (Nat × String)
  | _, [], acc => acc
  | i, p :: rest, acc =>
      scanLoop s env f ip (i + 1) rest (probeStep s env f ip acc i p)

/-- Embeds `PortScanner.scan_ports` (src/port_scanner.py lines 58-85).
`ThreadPoolExecutor` raises `ValueError` when `max_workers` is not
positive (modelled as `none`); otherwise one future per port occurrence is
submitted and the loop collects every result.  `max_workers` only bounds
in-flight threads; it does not affect which results are collected. -/
def scan_ports (s : PortScanner) (env : NetEnv) (f : FaultOracle) (ip : String)
    (ports : List Nat) (max_workers : Nat) :
    Option (List Nat × List (Nat × String)) :=
  if max_workers = 0 then none
  else some (scanLoop s env f ip 0 ports ([], []))

/-- Each loop iteration only appends to the accumulator. -/
theorem probeStep_acc (s : PortScanner) (env : NetEnv) (f : FaultOracle)
    (ip : String) (acc : List Nat × List (Nat × String)) (i : Nat) (p : Nat) :
    probeStep s env f ip acc i p
      = (acc.1 ++ (probeStep s env f ip ([], []) i p).1,
         acc.2 ++ (probeStep s env f ip ([], []) i p).2) := by
  unfold probeStep
  cases f i with
  | some msg => simp
  | none =>
      cases h1 : (scan_port s env ip p).1 <;>
        cases h2 : (scan_port s env ip p).2 with
        | none => simp [h1, h2]
        | some m => by_cases hm : m = "" <;> simp [h1, h2, hm]

/-- The whole loop only appends to the accumulator. -/
theorem scanLoop_acc (s : PortScanner) (env : NetEnv) (f : FaultOracle)
    (ip : String) (l : List Nat) :
    ∀ (i : Nat) (acc : List Nat × List (Nat × String)),
      scanLoop s env f ip i l acc
        = (acc.1 ++ (scanLoop s env f ip i l ([], [])).1,
           acc.2 ++ (scanLoop s env f ip i l ([], [])).2) := by
  induction l with
  | nil => intro i acc; simp [scanLoop]
  | cons p rest ih =>
      intro i acc
      have h1 : scanLoop s env f ip i (p :: rest) acc
          = scanLoop s env f ip (i + 1) rest (probeStep s env f ip acc i p) := rfl
      have h2 : scanLoop s env f ip i (p :: rest) ([], [])
          = scanLoop s env f ip (i + 1) rest (probeStep s env f ip ([], []) i p) := rfl
      rw [h1, ih, probeStep_acc, h2, ih]
      rw [ih (i + 1) (probeStep s env f ip ([], []) i p)]
      simp [List.append_assoc]

/-- The loop over a concatenation runs the first part, then the second
part starting at the shifted future position. -/
theorem scanLoop_append (s : PortScanner) (env : NetEnv) (f : FaultOracle)
    (ip : String) (l1 l2 : List Nat) :
    ∀ (i : Nat) (acc : List Nat × List (Nat × String)),
      scanLoop s env f ip i (l1 ++ l2) acc
        = scanLoop s env f ip (i + l1.length) l2 (scanLoop s env f ip i l1 acc) := by
  induction l1 with
  | nil => intro i acc; simp [scanLoop]
  | cons p rest ih =>
      intro i acc
      have h1 : scanLoop s env f ip i ((p :: rest) ++ l2) acc
          = scanLoop s env f ip (i + 1) (rest ++ l2) (probeStep s env f ip acc i p) := rfl
      have h2 : scanLoop s env f ip i (p :: rest) acc
          = scanLoop s env f ip (i + 1) rest (probeStep s env f ip acc i p) := rfl
      rw [h1, ih, h2]
      have h3 : i + 1 + rest.length = i + (p :: rest).length := by
        simp only [List.length_cons]; omega
      rw [h3]

/-- Number of probes whose outcome is silently dropped because it is
Closed: retrieval succeeds and `scan_port` classified the port Closed
(`(false, none)`), so neither `if is_open` nor `if error` fires,
positions counted from `i0`. -/
def closedDroppedCountFrom (s : PortScanner) (env : NetEnv) (f : FaultOracle)
    (ip : String) : Nat → List Nat → Nat
  | _, [] => 0
  | i, p :: rest =>
      (if f i = none ∧ scan_port s env ip p = (false, none) then 1 else 0)
        + closedDroppedCountFrom s env f ip (i + 1) rest

/-- Number of silently dropped Closed outcomes over a whole batch. -/
def closedDroppedCount (s : PortScanner) (env : NetEnv) (f : FaultOracle)
    (ip : String) (ports : List Nat) : Nat :=
  closedDroppedCountFrom s env f ip 0 ports

/-- Environment in which every connect attempt fails with an exception
whose `str(e)` is the empty string (e.g. a bare `OSError()`). -/
def emptyMsgEnv : NetEnv := fun _ _ _ => ConnectOutcome.fault ""

/-- Fault oracle under which every `future.result()` call succeeds. -/
def noFault : FaultOracle := fun _ => none

/-- Counterexample to C4 as stated: probing one port whose connect fails
with an empty-message exception produces an Errored outcome, yet `if
error:` is falsy on the empty string, so the entry is silently dropped;
with `k = 1` the batch returns no open ports, no error entries, and zero
dropped Closed outcomes, so the three counts sum to `0 ≠ k`. -/
theorem scan_ports_count_counterexample :
    scan_ports ⟨1⟩ emptyMsgEnv noFault "10.0.0.1" [80] 1 = some ([], []) ∧
    ¬ (([] : List Nat).length + ([] : List (Nat × String)).length
        + closedDroppedCount ⟨1⟩ emptyMsgEnv noFault "10.0.0.1" [80]
        = ([80] : List Nat).length) := by
  constructor
  · decide
  · decide

/-- Lengths bookkeeping for the result loop: under the proviso that no
probe fault carries an empty message, every position contributes exactly
one outcome — an open entry, an error entry, or a dropped Closed one. -/
theorem scanLoop_count (s : PortScanner) (env : NetEnv) (f : FaultOracle)
    (ip : String) (l : List Nat)
    (henv : ∀ p ∈ l, env ip p s.timeout ≠ ConnectOutcome.fault "") :
    ∀ (i : Nat) (acc : List Nat × List (Nat × String)),
      (scanLoop s env f ip i l acc).1.length + (scanLoop s env f ip i l acc).2.length
          + closedDroppedCountFrom s env f ip i l
        = acc.1.length + acc.2.length + l.length := by
  induction l with
  | nil => intro i acc; simp [scanLoop, closedDroppedCountFrom]
  | cons p rest ih =>
      intro i acc
      have hp : env ip p s.timeout ≠ ConnectOutcome.fault "" :=
        henv p (List.mem_cons_self p rest)
      have hrest : ∀ q ∈ rest, env ip q s.timeout ≠ ConnectOutcome.fault "" :=
        fun q hq => henv q (List.mem_cons_of_mem p hq)
      have h1 : scanLoop s env f ip i (p :: rest) acc
          = scanLoop s env f ip (i + 1) rest (probeStep s env f ip acc i p) := rfl
      have h2 : closedDroppedCountFrom s env f ip i (p :: rest)
          = (if f i = none ∧ scan_port s env ip p = (false, none) then 1 else 0)
            + closedDroppedCountFrom s env f ip (i + 1) rest := rfl
      rw [h1, h2]
      have hrec := ih hrest (i + 1) (probeStep s env f ip acc i p)
      have hstep : (probeStep s env f ip acc i p).1.length
            + (probeStep s env f ip acc i p).2.length
            + (if f i = none ∧ scan_port s env ip p = (false, none) then 1 else 0)
          = acc.1.length + acc.2.length + 1 := by
        unfold probeStep
        cases hf : f i with
        | some msg => simp [hf]; omega
        | none =>
            cases hc : env ip p s.timeout with
            | success => simp [hf, scan_port, hc]; omega
            | timedOut => simp [hf, scan_port, hc]
            | refused => simp [hf, scan_port, hc]
            | fault m =>
                have hm : m ≠ "" := by
                  intro hm
                  exact hp (by rw [hc, hm])
                simp [hf, scan_port, hc, hm]; omega
      simp only [List.length_cons]
      omega

/-- C4 amended: for every host, non-empty sequence of `k` ports and
concurrency bound `c ≥ 1`, `scan_ports` resolves all `k` scheduled probes
and returns a batch in which — provided no probe fault carries an empty
message (Python's `if error:` silently drops an empty error string) —
the open entries, error entries and silently dropped Closed outcomes sum
to exactly `k`, one outcome per probe. -/
theorem scan_ports_outcome_count (s : PortScanner) (env : NetEnv) (f : FaultOracle)
    (ip : String) (ports : List Nat) (c : Nat) (hne : ports ≠ []) (hc : 1 ≤ c)
    (henv : ∀ p ∈ ports, env ip p s.timeout ≠ ConnectOutcome.fault "") :
    ∃ opens errs, scan_ports s env f ip ports c = some (opens, errs) ∧
      opens.length + errs.length + closedDroppedCount s env f ip ports
        = ports.length := by
  have hc0 : ¬ c = 0 := by omega
  refine ⟨(scanLoop s env f ip 0 ports ([], [])).1,
    (scanLoop s env f ip 0 ports ([], [])).2, ?_, ?_⟩
  · rw [scan_ports, if_neg hc0]
  · have h := scanLoop_count s env f ip ports henv 0 ([], [])
    simpa [closedDroppedCount] using h

/-- Environment in which every connect attempt is actively refused. -/
def refusedEnv : NetEnv := fun _ _ _ => ConnectOutcome.refused

/-- Witness for the amended C4 at one refused port with `c = 1`. -/
theorem scan_ports_outcome_count_witness :
    ([80] : List Nat) ≠ [] ∧ 1 ≤ 1 ∧
    (∀ p ∈ ([80] : List Nat), refusedEnv "10.0.0.1" p 1 ≠ ConnectOutcome.fault "") ∧
    (∃ opens errs, scan_ports ⟨1⟩ refusedEnv noFault "10.0.0.1" [80] 1
        = some (opens, errs) ∧
      opens.length + errs.length
          + closedDroppedCount ⟨1⟩ refusedEnv noFault "10.0.0.1" [80] = 1) :=
  ⟨by decide, by decide, by decide,
    scan_ports_outcome_count ⟨1⟩ refusedEnv noFault "10.0.0.1" [80] 1
      (by decide) (by decide) (by decide)⟩

/-- C5: when retrieving the outcome of the probe at position `|A|` (its
port is `p`) raises an exception with message `msg`, `scan_ports` still
returns a batch: the faulted probe is recorded as exactly the error entry
`(p, msg)`, and the open-port and error entries contributed by every other
probe of the batch (those before, in `A`, and those after, in `B`) are
kept unchanged in their positions. -/
theorem scan_ports_retrieval_fault_isolated (s : PortScanner) (env : NetEnv)
    (f : FaultOracle) (ip : String) (A : List Nat) (p : Nat) (B : List Nat)
    (c : Nat) (msg : String) (hc : 1 ≤ c) (hf : f A.length = some msg) :
    scan_ports s env f ip (A ++ p :: B) c
      = some ((scanLoop s env f ip 0 A ([], [])).1
                ++ (scanLoop s env f ip (A.length + 1) B ([], [])).1,
              (scanLoop s env f ip 0 A ([], [])).2
                ++ (p, msg) :: (scanLoop s env f ip (A.length + 1) B ([], [])).2) := by
  have hc0 : ¬ c = 0 := by omega
  rw [scan_ports, if_neg hc0, scanLoop_append]
  simp only [Nat.zero_add]
  have hstep : scanLoop s env f ip A.length (p :: B) (scanLoop s env f ip 0 A ([], []))
      = scanLoop s env f ip (A.length + 1) B
          (probeStep s env f ip (scanLoop s env f ip 0 A ([], [])) A.length p) := rfl
  have hp : probeStep s env f ip (scanLoop s env f ip 0 A ([], [])) A.length p
      = ((scanLoop s env f ip 0 A ([], [])).1,
         (scanLoop s env f ip 0 A ([], [])).2 ++ [(p, msg)]) := by
    unfold probeStep
    rw [hf]
  rw [hstep, hp, scanLoop_acc]
  simp [List.append_assoc]

/-- Fault oracle under which retrieving the second future's result raises
an exception with message `boom`. -/
def faultAtOne : FaultOracle := fun i => if i = 1 then some "boom" else none

/-- Witness for C5: batch `[1, 2, 3]` with the probe of port 2 faulted at
retrieval; ports 1 and 3 are refused, so the batch is `([], [(2, "boom")])`. -/
theorem scan_ports_retrieval_fault_isolated_witness :
    1 ≤ 1 ∧ faultAtOne 1 = some "boom" ∧
    scan_ports ⟨1⟩ refusedEnv faultAtOne "10.0.0.1" [1, 2, 3] 1
      = some ([], [(2, "boom")]) := by
  refine ⟨by decide, by decide, ?_⟩
  have h := scan_ports_retrieval_fault_isolated ⟨1⟩ refusedEnv faultAtOne "10.0.0.1"
    [1] 2 [3] 1 "boom" (by decide) (by decide)
  exact h.trans (by decide)

/-- Aggregate map from host to its open ports, a Python dict in insertion
order. -/
abbrev OpenDict := List (String × List Nat)

/-- Aggregate map from host to its `(port, error)` pairs. -/
abbrev ErrDict := List (String × List (Nat × String))

/-- Key membership test of the association-list dict. -/
def hasKey {α : Type} : List (String × List α) → String → Bool
  | [], _ => false
  | kv :: rest, q => if kv.1 = q then true else hasKey rest q

/-- Lookup in the association-list dict (first binding wins, as in a
Python dict whose keys are unique). -/
def dictLookup {α : Type} : List (String × List α) → String → List α
  | [], _ => []
  | kv :: rest, q => if kv.1 = q then kv.2 else dictLookup rest q

/-- Embeds `if ip not in d: d[ip] = []` followed by `d[ip].extend(v)`:
an existing binding is extended in place, otherwise a new binding is
appended in insertion order. -/
def dictExtend {α : Type} (d : List (String × List α)) (k : String) (v : List α) :
    List (String × List α) :=
  if hasKey d k then
    d.map fun kv => if kv.1 = k then (kv.1, kv.2 ++ v) else kv
  else d ++ [(k, v)]

/-- Lookup of an absent key gives the empty list. -/
theorem dictLookup_of_hasKey_false {α : Type} (d : List (String × List α))
    (q : String) (h : hasKey d q = false) : dictLookup d q = [] := by
  induction d with
  | nil => rfl
  | cons kv rest ih =>
      by_cases h1 : kv.1 = q
      · simp [hasKey, h1] at h
      · simp only [hasKey, h1, if_false] at h
        simp [dictLookup, h1, ih h]

/-- Lookup through an appended dict: the left part wins when it binds the
key. -/
theorem dictLookup_append {α : Type} (d1 d2 : List (String × List α)) (q : String) :
    dictLookup (d1 ++ d2) q
      = if hasKey d1 q then dictLookup d1 q else dictLookup d2 q := by
  induction d1 with
  | nil => simp [dictLookup, hasKey]
  | cons kv rest ih =>
      by_cases h1 : kv.1 = q
      · simp [dictLookup, hasKey, h1]
      · simp [dictLookup, hasKey, h1, ih]

/-- Extending a key other than the one looked up leaves the lookup
unchanged (map form). -/
theorem dictLookup_map_ne {α : Type} (d : List (String × List α)) (k q : String)
    (v : List α) (hq : q ≠ k) :
    dictLookup (d.map fun kv => if kv.1 = k then (kv.1, kv.2 ++ v) else kv) q
      = dictLookup d q := by
  induction d with
  | nil => rfl
  | cons kv rest ih =>
      by_cases h1 : kv.1 = k
      · have h2 : ¬ kv.1 = q := by rw [h1]; exact fun hh => hq hh.symm
        have h3 : ¬ k = q := fun hh => hq hh.symm
        simp [dictLookup, h1, h2, h3, ih]
      · by_cases h2 : kv.1 = q
        · simp [dictLookup, h1, h2, hq]
        · simp [dictLookup, h1, h2, ih]

/-- Extending a present key appends to the looked-up value (map form). -/
theorem dictLookup_map_self {α : Type} (d : List (String × List α)) (k : String)
    (v : List α) (hk : hasKey d k = true) :
    dictLookup (d.map fun kv => if kv.1 = k then (kv.1, kv.2 ++ v) else kv) k
      = dictLookup d k ++ v := by
  induction d with
  | nil => simp [hasKey] at hk
  | cons kv rest ih =>
      by_cases h1 : kv.1 = k
      · simp [dictLookup, h1]
      · simp only [hasKey, h1, if_false] at hk
        simp [dictLookup, h1, ih hk]

/-- Lookup after `dictExtend`: the extended key gains `v`, others are
untouched. -/
theorem dictLookup_extend {α : Type} (d : List (String × List α)) (k : String)
    (v : List α) (q : String) :
    dictLookup (dictExtend d k v) q
      = dictLookup d q ++ (if q = k then v else []) := by
  unfold dictExtend
  by_cases hq : q = k
  · subst hq
    by_cases hk : hasKey d q
    · simp [hk, dictLookup_map_self d q v hk]
    · rw [if_neg hk, dictLookup_append]
      simp [hk, dictLookup_of_hasKey_false d q (by simpa using hk), dictLookup]
  · by_cases hk : hasKey d k
    · simp [hk, dictLookup_map_ne d k q v hq, hq]
    · rw [if_neg hk, dictLookup_append]
      by_cases hdq : hasKey d q
      · simp [hdq, hq]
      · have hkq : ¬ k = q := fun hh => hq hh.symm
        simp [hdq, hq, hkq, dictLookup_of_hasKey_false d q (by simpa using hdq),
          dictLookup]

/-- Embeds class `NetworkScanner` (src/port_scanner.py lines 88-112); its
`port_scanner` attribute is a default `PortScanner()` with timeout 1. -/
structure NetworkScanner where
  ip_range : String
  ports : List Nat
  num_processes : Nat
  max_workers : Nat

/-- Embeds `NetworkScanner._scan_ip` (src/port_scanner.py lines 114-127):
one unit of work scans one ip over one port range with the inner thread
pool, using the default-constructed `PortScanner()` (timeout 1). -/
def scan_ip (ns : NetworkScanner) (env : NetEnv) (f : FaultOracle) (ip : String)
    (port_range : List Nat) : Option (List Nat × List (Nat × String)) :=
  scan_ports ⟨1⟩ env f ip port_range ns.max_workers

/-- Work units submitted by `scan_network`: the futures dict comprehension
`for ip in network.hosts() for port_range in port_ranges`, with the host
enumeration of the `ipaddress` library abstracted as `hostsOf`. -/
def units (hostsOf : String → List String) (ip_range : String)
    (port_ranges : List (List Nat)) : List (String × List Nat) :=
  (hostsOf ip_range).flatMap fun ip => port_ranges.map fun pr => (ip, pr)

/-- Embeds the aggregation body of `scan_network` (src/port_scanner.py
lines 150-159): a truthy (non-empty) open-port list extends the open
dict under the unit's ip, a truthy error list extends the error dict. -/
def aggStep (acc : OpenDict × ErrDict) (ip : String)
    (r : List Nat × List (Nat × String)) : OpenDict × ErrDict :=
  (if r.1 = [] then acc.1 else dictExtend acc.1 ip r.1,
   if r.2 = [] then acc.2 else dictExtend acc.2 ip r.2)

/-- Embeds one iteration of the result loop of `scan_network` (src lines
146-161): a unit-retrieval fault is only logged — nothing is recorded —
and an exception escaping the unit itself (`scan_ip` returning `none`)
is likewise caught and dropped; otherwise the batch is aggregated. -/
def netStep (ns : NetworkScanner) (env : NetEnv) (pf : Nat → FaultOracle)
    (uf : FaultOracle) (acc : OpenDict × ErrDict) (i : Nat)
    (u : String × List Nat) : OpenDict × ErrDict :=
  match uf i with
  | some _ => acc
  | none =>
      match scan_ip ns env (pf i) u.1 u.2 with
      | none => acc
      | some r => aggStep acc u.1 r

/-- Result loop of `scan_network` over the futures in submission order,
carrying the position of the next unit. -/
def netLoop (ns : NetworkScanner) (env : NetEnv) (pf : Nat → FaultOracle)
    (uf : FaultOracle) : Nat → List (String × List Nat) → OpenDict × ErrDict →
      OpenDict × ErrDict
  | _, [], acc => acc
  | i, u :: rest, acc =>
      netLoop ns env pf uf (i + 1) rest (netStep ns env pf uf acc i u)

/-- Embeds `NetworkScanner.scan_network` (src/port_scanner.py lines
129-163).  `ProcessPoolExecutor` raises `ValueError` when `max_workers`
is not positive (modelled as `none`); otherwise every (host, chunk) unit
is submitted and the loop aggregates the completed units. -/
def scan_network (ns : NetworkScanner) (port_ranges : List (List Nat))
    (hostsOf : String → List String) (env : NetEnv) (pf : Nat → FaultOracle)
    (uf : FaultOracle) : Option (OpenDict × ErrDict) :=
  if ns.num_processes = 0 then none
  else some (netLoop ns env pf uf 0 (units hostsOf ns.ip_range port_ranges) ([], []))

/-- The unit loop over a concatenation runs the first part, then the
second part starting at the shifted unit position. -/
theorem netLoop_append (ns : NetworkScanner) (env : NetEnv) (pf : Nat → FaultOracle)
    (uf : FaultOracle) (l1 l2 : List (String × List Nat)) :
    ∀ (i : Nat) (acc : OpenDict × ErrDict),
      netLoop ns env pf uf i (l1 ++ l2) acc
        = netLoop ns env pf uf (i + l1.length) l2 (netLoop ns env pf uf i l1 acc) := by
  induction l1 with
  | nil => intro i acc; simp [netLoop]
  | cons u rest ih =>
      intro i acc
      have h1 : netLoop ns env pf uf i ((u :: rest) ++ l2) acc
          = netLoop ns env pf uf (i + 1) (rest ++ l2) (netStep ns env pf uf acc i u) := rfl
      have h2 : netLoop ns env pf uf i (u :: rest) acc
          = netLoop ns env pf uf (i + 1) rest (netStep ns env pf uf acc i u) := rfl
      rw [h1, ih, h2]
      have h3 : i + 1 + rest.length = i + (u :: rest).length := by
        simp only [List.length_cons]; omega
      rw [h3]

/-- A unit whose retrieval faults contributes nothing. -/
theorem netStep_of_fault (ns : NetworkScanner) (env : NetEnv) (pf : Nat → FaultOracle)
    (uf : FaultOracle) (acc : OpenDict × ErrDict) (i : Nat) (u : String × List Nat)
    (msg : String) (hf : uf i = some msg) :
    netStep ns env pf uf acc i u = acc := by
  unfold netStep
  rw [hf]

/-- A unit carrying an empty port chunk contributes nothing: its batch is
`([], [])` (or, when the inner pool size is invalid, the unit fails), and
both `if open_ports:` and `if errors:` are falsy on empty lists. -/
theorem netStep_empty_chunk (ns : NetworkScanner) (env : NetEnv)
    (pf : Nat → FaultOracle) (uf : FaultOracle) (acc : OpenDict × ErrDict)
    (i : Nat) (ip' : String) :
    netStep ns env pf uf acc i (ip', []) = acc := by
  unfold netStep
  cases huf : uf i with
  | some m => rfl
  | none =>
      unfold scan_ip scan_ports
      by_cases hmw : ns.max_workers = 0
      · rw [if_pos hmw]
      · rw [if_neg hmw]
        rfl

/-- C6: when retrieving the result of the unit at position `|A|` of the
submitted unit list raises, `scan_network` still returns both maps: the
result is exactly the aggregation of the units before (`A`) and after
(`B`) the faulted one, so the faulted unit's contribution is dropped from
both the open-ports map and the errors map while every other unit still
completes and contributes. -/
theorem scan_network_unit_fault_dropped (ns : NetworkScanner)
    (port_ranges : List (List Nat)) (hostsOf : String → List String)
    (env : NetEnv) (pf : Nat → FaultOracle) (uf : FaultOracle)
    (A : List (String × List Nat)) (u : String × List Nat)
    (B : List (String × List Nat)) (msg : String)
    (hproc : 1 ≤ ns.num_processes)
    (hu : units hostsOf ns.ip_range port_ranges = A ++ u :: B)
    (hf : uf A.length = some msg) :
    scan_network ns port_ranges hostsOf env pf uf
      = some (netLoop ns env pf uf (A.length + 1) B
          (netLoop ns env pf uf 0 A ([], []))) := by
  have h0 : ¬ ns.num_processes = 0 := by omega
  rw [scan_network, if_neg h0, hu, netLoop_append]
  simp only [Nat.zero_add]
  have h1 : netLoop ns env pf uf A.length (u :: B) (netLoop ns env pf uf 0 A ([], []))
      = netLoop ns env pf uf (A.length + 1) B
          (netStep ns env pf uf (netLoop ns env pf uf 0 A ([], [])) A.length u) := rfl
  rw [h1, netStep_of_fault ns env pf uf _ A.length u msg hf]

/-- Host enumeration oracle returning a single host. -/
def oneHost : String → List String := fun _ => ["10.0.0.1"]

/-- Environment in which every connect attempt succeeds. -/
def successEnv : NetEnv := fun _ _ _ => ConnectOutcome.success

/-- Unit-fault oracle under which retrieving the first unit's result
raises an exception with message `crash`. -/
def ufaultAtZero : FaultOracle := fun i => if i = 0 then some "crash" else none

/-- Network scanner instance used by concrete witnesses. -/
def nsW : NetworkScanner := ⟨"10.0.0.1/32", [80, 81], 1, 1⟩

/-- Witness for C6: two units over one host; the first unit's retrieval
faults, so only the second unit's open port survives. -/
theorem scan_network_unit_fault_dropped_witness :
    1 ≤ 1 ∧
    units oneHost "10.0.0.1/32" [[80], [81]]
      = [] ++ ("10.0.0.1", [80]) :: [("10.0.0.1", [81])] ∧
    ufaultAtZero 0 = some "crash" ∧
    scan_network nsW [[80], [81]] oneHost successEnv (fun _ => noFault) ufaultAtZero
      = some ([("10.0.0.1", [81])], []) := by
  refine ⟨by decide, by rfl, by decide, ?_⟩
  have h := scan_network_unit_fault_dropped nsW [[80], [81]] oneHost successEnv
    (fun _ => noFault) ufaultAtZero [] ("10.0.0.1", [80]) [("10.0.0.1", [81])]
    "crash" (by decide) (by rfl) (by decide)
  exact h.trans (by decide)

/-- The unit loop never reads `num_processes`; only the inner pool size
`max_workers` is forwarded to the units. -/
theorem netLoop_num_processes_irrelevant (ipr : String) (ps : List Nat)
    (np np' mw : Nat) (env : NetEnv) (pf : Nat → FaultOracle) (uf : FaultOracle)
    (l : List (String × List Nat)) :
    ∀ (i : Nat) (acc : OpenDict × ErrDict),
      netLoop ⟨ipr, ps, np, mw⟩ env pf uf i l acc
        = netLoop ⟨ipr, ps, np', mw⟩ env pf uf i l acc := by
  induction l with
  | nil => intro i acc; rfl
  | cons u rest ih =>
      intro i acc
      have h1 : netLoop ⟨ipr, ps, np, mw⟩ env pf uf i (u :: rest) acc
          = netLoop ⟨ipr, ps, np, mw⟩ env pf uf (i + 1) rest
              (netStep ⟨ipr, ps, np, mw⟩ env pf uf acc i u) := rfl
      have h2 : netLoop ⟨ipr, ps, np', mw⟩ env pf uf i (u :: rest) acc
          = netLoop ⟨ipr, ps, np', mw⟩ env pf uf (i + 1) rest
              (netStep ⟨ipr, ps, np', mw⟩ env pf uf acc i u) := rfl
      have h3 : netStep ⟨ipr, ps, np, mw⟩ env pf uf acc i u
          = netStep ⟨ipr, ps, np', mw⟩ env pf uf acc i u := rfl
      rw [h1, h2, ← h3, ih]

/-- C7: scanning the same hosts and port chunks with outer concurrency 1
versus outer concurrency 8 yields maps with identical per-host contents:
for every host, the open-port list and the `(port, error)` list agree;
the pool size only bounds parallelism, and results are incorporated in
submission order either way. -/
theorem scan_network_concurrency_irrelevant (ipr : String) (ps : List Nat)
    (mw : Nat) (port_ranges : List (List Nat)) (hostsOf : String → List String)
    (env : NetEnv) (pf : Nat → FaultOracle) (uf : FaultOracle) :
    ∃ r1 r8 : OpenDict × ErrDict,
      scan_network ⟨ipr, ps, 1, mw⟩ port_ranges hostsOf env pf uf = some r1 ∧
      scan_network ⟨ipr, ps, 8, mw⟩ port_ranges hostsOf env pf uf = some r8 ∧
      ∀ host : String, dictLookup r1.1 host = dictLookup r8.1 host ∧
        dictLookup r1.2 host = dictLookup r8.2 host := by
  refine ⟨netLoop ⟨ipr, ps, 1, mw⟩ env pf uf 0 (units hostsOf ipr port_ranges) ([], []),
    netLoop ⟨ipr, ps, 8, mw⟩ env pf uf 0 (units hostsOf ipr port_ranges) ([], []),
    by rw [scan_network, if_neg (by simp)], by rw [scan_network, if_neg (by simp)],
    ?_⟩
  intro host
  rw [netLoop_num_processes_irrelevant ipr ps 1 8 mw env pf uf
    (units hostsOf ipr port_ranges) 0 ([], [])]
  exact ⟨rfl, rfl⟩

/-- C9: downstream consumers tolerate the partitioner's emitted empty
trailing chunk as a no-op unit: for any concurrency bound `c ≥ 1`,
`scan_ports` on the empty port list returns empty open and error lists
without raising, and a unit carrying an empty chunk leaves the aggregate
maps of `scan_network` unchanged. -/
theorem scan_ports_empty_chunk_noop (s : PortScanner) (env : NetEnv)
    (f : FaultOracle) (ip : String) (c : Nat) (hc : 1 ≤ c) :
    scan_ports s env f ip [] c = some ([], []) ∧
    ∀ (ns : NetworkScanner) (pf : Nat → FaultOracle) (uf : FaultOracle)
      (i : Nat) (ip' : String) (rest : List (String × List Nat))
      (acc : OpenDict × ErrDict),
      netLoop ns env pf uf i ((ip', []) :: rest) acc
        = netLoop ns env pf uf (i + 1) rest acc := by
  constructor
  · rw [scan_ports, if_neg (by omega : ¬ c = 0)]
    simp [scanLoop]
  · intro ns pf uf i ip' rest acc
    have h1 : netLoop ns env pf uf i ((ip', []) :: rest) acc
        = netLoop ns env pf uf (i + 1) rest (netStep ns env pf uf acc i (ip', [])) := rfl
    rw [h1, netStep_empty_chunk]

/-- Witness for C9 at `c = 1` with a refused environment. -/
theorem scan_ports_empty_chunk_noop_witness :
    1 ≤ 1 ∧ scan_ports ⟨1⟩ refusedEnv noFault "10.0.0.1" [] 1 = some ([], []) :=
  ⟨by decide,
    (scan_ports_empty_chunk_noop ⟨1⟩ refusedEnv noFault "10.0.0.1" 1 (by decide)).1⟩

/-- A unit whose worker raised inside `scan_ip` contributes nothing. -/
theorem netStep_of_unit_error (ns : NetworkScanner) (env : NetEnv)
    (pf : Nat → FaultOracle) (uf : FaultOracle) (acc : OpenDict × ErrDict)
    (i : Nat) (u : String × List Nat) (huf : uf i = none)
    (hsp : scan_ip ns env (pf i) u.1 u.2 = none) :
    netStep ns env pf uf acc i u = acc := by
  unfold netStep
  rw [huf, hsp]

/-- A unit whose batch was retrieved intact is aggregated. -/
theorem netStep_of_result (ns : NetworkScanner) (env : NetEnv)
    (pf : Nat → FaultOracle) (uf : FaultOracle) (acc : OpenDict × ErrDict)
    (i : Nat) (u : String × List Nat) (r : List Nat × List (Nat × String))
    (huf : uf i = none) (hsp : scan_ip ns env (pf i) u.1 u.2 = some r) :
    netStep ns env pf uf acc i u = aggStep acc u.1 r := by
  unfold netStep
  rw [huf, hsp]

/-- A probe reported open is exactly the success case `(true, none)`. -/
theorem scan_port_open_eq (s : PortScanner) (env : NetEnv) (ip : String) (p : Nat)
    (hb : (scan_port s env ip p).1 = true) :
    scan_port s env ip p = (true, none) := by
  cases h : env ip p s.timeout <;> simp [scan_port, h] at hb ⊢

/-- Every member of the open list produced by the result loop was either
already in the accumulator or was confirmed Open by its own probe. -/
theorem scanLoop_open_mem (s : PortScanner) (env : NetEnv) (f : FaultOracle)
    (ip : String) (l : List Nat) :
    ∀ (i : Nat) (acc : List Nat × List (Nat × String)) (q : Nat),
      q ∈ (scanLoop s env f ip i l acc).1 →
      q ∈ acc.1 ∨ scan_port s env ip q = (true, none) := by
  induction l with
  | nil => intro i acc q hq; exact Or.inl hq
  | cons p rest ih =>
      intro i acc q hq
      have h1 : scanLoop s env f ip i (p :: rest) acc
          = scanLoop s env f ip (i + 1) rest (probeStep s env f ip acc i p) := rfl
      rw [h1] at hq
      rcases ih (i + 1) (probeStep s env f ip acc i p) q hq with h | h
      · unfold probeStep at h
        cases hf : f i with
        | some msg => rw [hf] at h; exact Or.inl h
        | none =>
            rw [hf] at h
            by_cases hb : (scan_port s env ip p).1
            · simp only [hb, if_true] at h
              rcases List.mem_append.1 h with h | h
              · exact Or.inl h
              · have hqp : q = p := List.mem_singleton.1 h
                exact Or.inr (hqp ▸ scan_port_open_eq s env ip p hb)
            · simp only [hb, if_false] at h
              exact Or.inl h
      · exact Or.inr h

/-- Every open port reported by a batch was confirmed Open by its own
probe against the batch's host. -/
theorem scan_ports_open_mem (s : PortScanner) (env : NetEnv) (f : FaultOracle)
    (ip : String) (ports : List Nat) (c : Nat) (o : List Nat)
    (e : List (Nat × String)) (h : scan_ports s env f ip ports c = some (o, e))
    (q : Nat) (hq : q ∈ o) : scan_port s env ip q = (true, none) := by
  rw [scan_ports] at h
  by_cases hc : c = 0
  · rw [if_pos hc] at h
    exact absurd h (by simp)
  · rw [if_neg hc] at h
    injection h with h
    have ho : o = (scanLoop s env f ip 0 ports ([], [])).1 := by rw [h]
    rw [ho] at hq
    rcases scanLoop_open_mem s env f ip ports 0 ([], []) q hq with h' | h'
    · exact absurd h' (List.not_mem_nil q)
    · exact h'

/-- Invariant of the unit loop: open-map entries only ever come from
probes confirmed Open for the exact looked-up host. -/
theorem netLoop_open_invariant (ns : NetworkScanner) (env : NetEnv)
    (pf : Nat → FaultOracle) (uf : FaultOracle) (l : List (String × List Nat)) :
    ∀ (i : Nat) (acc : OpenDict × ErrDict),
      (∀ ip q, q ∈ dictLookup acc.1 ip → scan_port ⟨1⟩ env ip q = (true, none)) →
      ∀ ip q, q ∈ dictLookup (netLoop ns env pf uf i l acc).1 ip →
        scan_port ⟨1⟩ env ip q = (true, none) := by
  induction l with
  | nil => intro i acc hacc; exact hacc
  | cons u rest ih =>
      intro i acc hacc ip q hq
      have h1 : netLoop ns env pf uf i (u :: rest) acc
          = netLoop ns env pf uf (i + 1) rest (netStep ns env pf uf acc i u) := rfl
      rw [h1] at hq
      refine ih (i + 1) (netStep ns env pf uf acc i u) ?_ ip q hq
      intro ip' q' hq'
      cases huf : uf i with
      | some m =>
          rw [netStep_of_fault ns env pf uf acc i u m huf] at hq'
          exact hacc ip' q' hq'
      | none =>
          cases hsp : scan_ip ns env (pf i) u.1 u.2 with
          | none =>
              rw [netStep_of_unit_error ns env pf uf acc i u huf hsp] at hq'
              exact hacc ip' q' hq'
          | some r =>
              rw [netStep_of_result ns env pf uf acc i u r huf hsp] at hq'
              simp only [aggStep] at hq'
              by_cases hr : r.1 = []
              · rw [if_pos hr] at hq'
                exact hacc ip' q' hq'
              · rw [if_neg hr] at hq'
                rw [dictLookup_extend] at hq'
                rcases List.mem_append.1 hq' with h | h
                · exact hacc ip' q' h
                · by_cases hip : ip' = u.1
                  · rw [if_pos hip] at h
                    subst hip
                    unfold scan_ip at hsp
                    exact scan_ports_open_mem ⟨1⟩ env (pf i) u.1 u.2 ns.max_workers
                      r.1 r.2 (by rw [hsp]) q' h
                  · rw [if_neg hip] at h
                    exact absurd h (List.not_mem_nil q')

/-- C8: every port listed under a host in the final open-ports map of a
completed scan came from a probe that returned Open for exactly that
(host, port) pair; and no single probe ever contributes both an open
entry and an error entry — one iteration of the batch loop extends at
most one of the two lists. -/
theorem scan_network_open_provenance (ns : NetworkScanner)
    (port_ranges : List (List Nat)) (hostsOf : String → List String)
    (env : NetEnv) (pf : Nat → FaultOracle) (uf : FaultOracle)
    (r : OpenDict × ErrDict)
    (h : scan_network ns port_ranges hostsOf env pf uf = some r) :
    (∀ ip port, port ∈ dictLookup r.1 ip →
      scan_port ⟨1⟩ env ip port = (true, none)) ∧
    (∀ (s : PortScanner) (f : FaultOracle) (ip : String)
      (acc : List Nat × List (Nat × String)) (i p : Nat),
      (probeStep s env f ip acc i p).1 = acc.1 ∨
      (probeStep s env f ip acc i p).2 = acc.2) := by
  constructor
  · rw [scan_network] at h
    by_cases hp : ns.num_processes = 0
    · rw [if_pos hp] at h
      exact absurd h (by simp)
    · rw [if_neg hp] at h
      injection h with h
      intro ip port hport
      refine netLoop_open_invariant ns env pf uf
        (units hostsOf ns.ip_range port_ranges) 0 ([], []) ?_ ip port (by rw [h]; exact hport)
      intro ip' q' hq'
      exact absurd hq' (List.not_mem_nil q')
  · intro s f ip acc i p
    unfold probeStep
    cases hf : f i with
    | some msg => exact Or.inl rfl
    | none =>
        cases hc : env ip p s.timeout with
        | success => simp [scan_port, hc]
        | timedOut => simp [scan_port, hc]
        | refused => simp [scan_port, hc]
        | fault m =>
            by_cases hm : m = "" <;> simp [scan_port, hc, hm]

/-- Witness for C8: a single-unit scan whose only port is confirmed Open. -/
theorem scan_network_open_provenance_witness :
    scan_network nsW [[80]] oneHost successEnv (fun _ => noFault) noFault
        = some ([("10.0.0.1", [80])], []) ∧
      scan_port ⟨1⟩ successEnv "10.0.0.1" 80 = (true, none) :=
  ⟨by decide,
    (scan_network_open_provenance nsW [[80]] oneHost successEnv (fun _ => noFault)
      noFault ([("10.0.0.1", [80])], []) (by decide)).1 "10.0.0.1" 80 (by decide)⟩
